import Mathlib

set_option maxHeartbeats 1000000

/-!
Shallow embedding of `src/core/src/idx/planner/executor.rs` (the
index-assisted query-plan executor) together with proofs about the
claims concerning it.

Modelling conventions:
* Machine integers (`u16` iterator refs, `u8` match refs, `u64` doc ids,
  term ids) are modelled as `Nat`; the only place an overflowing cast
  occurs in the source (`n.to_int() as u8` in `get_match_ref`) is
  modelled with an explicit `% 256`.
* Opaque collaborator values (expressions, idioms, analyzer handles,
  distance metrics, encoded distances, scorer handles) are modelled as
  plain identifiers (`Nat`); the executor only moves them around.
* Storage-backed maps (`DocIds`, posting lists) are modelled as
  association lists / membership in lists, reflecting the interface the
  spec gives for them (`get_doc_id(key) -> Optional DocId`,
  posting-list membership).
* Fallible external calls (analyzer term extraction, index backend
  construction, scorer evaluation, idiom computation, distance
  computation, full-text iterator construction) are abstracted as
  oracle functions collected in environment structures; they return
  `Except Error _` exactly where the source call is fallible.
-/

/-- Plan-local index reference (`IndexRef = u16` in `tree.rs`). -/
abbrev IndexRef := Nat

/-- User-assigned match reference (`MatchRef = u8` in `ft/mod.rs`). -/
abbrev MatchRef := Nat

/-- Opaque identity of an `Expression` (the executor only uses equality
and hashing of expressions). -/
abbrev Expression := Nat

/-- Compact document identifier (`DocId = u64`). -/
abbrev DocId := Nat

/-- Opaque identity of an analyzed term. -/
abbrev TermId := Nat

/-- Opaque identity of an `Idiom` (indexed field path). -/
abbrev Idiom := Nat

/-- Opaque descriptor of a `Distance` metric. -/
abbrev DistanceMetric := Nat

/-- Opaque encoding of a computed distance value (an `f64` in the
source; the executor never inspects it, it only passes it on). -/
abbrev DistVal := Nat

/-- Opaque encoding of a `Number` (vector component). -/
abbrev NumberV := Int

/-- Record identifier `Thing = (table, id)`. -/
structure Thing where
  tb : String
  id : String
deriving DecidableEq

/-- The fragment of `sql::Value` the executor manipulates. -/
inductive Value : Type where
  | none
  | bool (b : Bool)
  | number (n : Int)
  | str (s : String)
  | object (fields : List (String × Value))

/-- Range bound `RangeValue = (value, inclusive)`. -/
structure RangeValue where
  value : Value
  inclusive : Bool

/-- Which operand of the binary predicate holds the indexed field. -/
inductive IdiomPosition : Type where
  | left
  | right
deriving DecidableEq

mutual
/-- `IndexOperator` from `plan.rs`: the access shape chosen for one
predicate, as consumed by `executor.rs`. -/
inductive IndexOperator : Type where
  | equality (value : Value)
  | union (value : Value)
  | join (ios : List IndexOption)
  | matches (qs : String) (mr : Option MatchRef)
  | knn (a : List Value) (k : Nat)

/-- `IndexOption` from `plan.rs`: `(IndexRef, IdiomPosition, Operator)`. -/
inductive IndexOption : Type where
  | mk (ixRef : IndexRef) (idPos : IdiomPosition) (op : IndexOperator)
end

/-- Accessor mirroring `IndexOption::ix_ref()`. -/
def IndexOption.ix_ref : IndexOption → IndexRef
  | .mk i _ _ => i

/-- Accessor mirroring `IndexOption::id_pos()`. -/
def IndexOption.id_pos : IndexOption → IdiomPosition
  | .mk _ p _ => p

/-- Accessor mirroring `IndexOption::op()`. -/
def IndexOption.op : IndexOption → IndexOperator
  | .mk _ _ o => o

/-- Parameters of a `Search` (full-text) index definition; the executor
only reads the analyzer name. -/
structure SearchParams where
  az : String

/-- Parameters of an `MTree` index definition; opaque to the executor. -/
structure MTreeParams where
  dimension : Nat

/-- Index kind of a `DefineIndexStatement` (`sql::index::Index`). -/
inductive Index : Type where
  | idx
  | uniq
  | search (p : SearchParams)
  | mtree (p : MTreeParams)

/-- The fields of `DefineIndexStatement` read by the executor. -/
structure DefineIndexStatement where
  name : String
  what : String
  index : Index

/-- Modelled from the spec: `TermsSet` (from `idx/ft/analyzer.rs`, not
under `src/`) is the deduplicated set of analyzed query terms; it is
"not matchable" when it is empty or contains terms unknown to the
index. -/
structure TermsSet where
  terms : List TermId
  hasUnknown : Bool

/-- Modelled from the spec: a `TermsSet` is matchable when it is
non-empty and every term is known to the index. -/
def TermsSet.is_matchable (s : TermsSet) : Bool :=
  !s.terms.isEmpty && !s.hasUnknown

/-- Modelled from the spec: subset test between two `TermsSet`s. -/
def TermsSet.is_subset (s t : TermsSet) : Bool :=
  s.terms.all (fun x => decide (x ∈ t.terms))

/-- Per-term posting lists: for each query term, `some (term, posting
list)` or `none` when the term is absent from the dictionary. -/
abbrev TermsDocsM := List (Option (TermId × List DocId))

/-- Runtime `FtEntry` (`struct Inner` in the source): per-predicate
derived full-text state.  The `DocIds` map behind its `RwLock` is
modelled as an association list keyed by record id, per the spec's
`get_doc_id(key) -> Optional DocId` interface. -/
structure FtEntry where
  index_option : IndexOption
  doc_ids : List (Thing × DocId)
  analyzer : Nat
  query_terms_set : TermsSet
  query_terms_list : List TermId
  terms_docs : TermsDocsM
  scorer : Option Nat

/-- Runtime `MtEntry`: shared `DocIds` handle plus the eagerly computed
kNN result buffer. -/
structure MtEntry where
  doc_ids : List (Thing × DocId)
  res : List DocId

/-- Runtime kNN entry `(KnnPriorityList, Idiom, Vec<Number>, Distance)`;
the priority list itself is modelled by logging the `add` calls that
`knn` performs (see `QueryExecutor.knn`). -/
structure KnnEntry where
  id : Idiom
  obj : List NumberV
  dist : DistanceMetric

/-- `IteratorEntry`: a registered iterator request. -/
inductive IteratorEntry : Type where
  | single (exp : Expression) (io : IndexOption)
  | range (exps : List Expression) (ir : IndexRef) (frm : RangeValue) (toV : RangeValue)

/-- The error kinds of `err::Error` the executor can surface; oracle
failures are represented by the abstract codes. -/
inductive Error : Type where
  | duplicatedMatchRef (mr : MatchRef)
  | noIndexFoundForMatch (value : Expression)
  | storage (code : Nat)
  | analyzer (code : Nat)
deriving DecidableEq

/-- Association-list lookup, modelling `HashMap::get`. -/
def alookup {κ α : Type} [DecidableEq κ] (k : κ) : List (κ × α) → Option α
  | [] => Option.none
  | (k', v) :: rest => if k' = k then Option.some v else alookup k rest

/-- The fields of `Options` the executor reads. -/
structure Options where
  ns : String
  db : String

/-- `KnnSet` per table, as consumed by `QueryExecutor::knn` during the
iterate stage: table name to (expression to set of things). -/
abbrev KnnSetMap := List (String × List (Expression × List Thing))

/-- Modelled from the spec: `IterationStage` (from `planner/mod.rs`, not
under `src/`) has a build-set stage and an iterate stage carrying the
frozen per-table kNN sets. -/
inductive IterationStage : Type where
  | buildKnn
  | iterate (e : Option KnnSetMap)

/-- Oracles abstracting the fallible external calls the runtime facade
makes; each is deterministic in its arguments, mirroring a read-only
snapshot of storage. -/
structure ExecEnv where
  extract_indexing_terms : Nat → Value → Except Error TermsSet
  matches_iter_new : Nat → TermsDocsM → Except Error Unit
  ft_highlight : Nat → Thing → List TermId → Value → Value → Bool → Value → Except Error Value
  ft_extract_offsets : Nat → Thing → List TermId → Bool → Except Error Value
  scorer_score : Nat → DocId → Except Error (Option Int)
  idiom_compute : Idiom → Except Error (List NumberV)
  dist_compute : DistanceMetric → List NumberV → List NumberV → Except Error DistVal

/-- The `ThingIterator` family: one variant per index access shape,
carrying the construction arguments of the corresponding source
constructor. -/
inductive ThingIterator : Type where
  | indexEqual (ns db what name : String) (value : Value)
  | indexUnion (ns db what name : String) (value : Value)
  | indexJoin (what name : String) (its : List ThingIterator)
  | uniqueEqual (ns db what name : String) (value : Value)
  | uniqueUnion (what name : String) (value : Value)
  | uniqueJoin (what name : String) (its : List ThingIterator)
  | indexRange (ns db what name : String) (frm : RangeValue) (toV : RangeValue)
  | uniqueRange (ns db what name : String) (frm : RangeValue) (toV : RangeValue)
  | matchesIt (fti : Nat) (tdocs : TermsDocsM)
  | knnIt (docIds : List (Thing × DocId)) (res : List DocId)

/-- Runtime state of `QueryExecutor` / `InnerQueryExecutor` (the `Arc`
indirection is identity-irrelevant and dropped). -/
structure QueryExecutor where
  table : String
  ft_map : List (IndexRef × Nat)
  mr_entries : List (MatchRef × FtEntry)
  exp_entries : List (Expression × FtEntry)
  it_entries : List IteratorEntry
  index_definitions : List DefineIndexStatement
  mt_entries : List (Expression × MtEntry)
  knn_entries : List (Expression × KnnEntry)

/-- Truncating cast in `QueryExecutor::get_match_ref`: `n.to_int() as
u8`, i.e. reduction modulo 256. -/
def QueryExecutor.get_match_ref (match_ref : Value) : Option MatchRef :=
  match match_ref with
  | .number n => Option.some (Int.toNat (n % 256))
  | _ => Option.none

/-- `QueryExecutor::get_index_def`. -/
def QueryExecutor.get_index_def (qe : QueryExecutor) (ir : IndexRef) :
    Option DefineIndexStatement :=
  qe.index_definitions.get? ir

/-- `QueryExecutor::is_table`. -/
def QueryExecutor.is_table (qe : QueryExecutor) (tb : String) : Bool :=
  qe.table = tb

/-- `QueryExecutor::has_knn`. -/
def QueryExecutor.has_knn (qe : QueryExecutor) : Bool :=
  !qe.knn_entries.isEmpty

/-- `QueryExecutor::is_iterator_expression`. -/
def QueryExecutor.is_iterator_expression (qe : QueryExecutor) (ir : Nat)
    (exp : Expression) : Bool :=
  match qe.it_entries.get? ir with
  | Option.some (.single e _) => exp = e
  | Option.some (.range es _ _ _) => decide (exp ∈ es)
  | Option.none => false

/-- Modelled from the spec: `IndexOption::explain` lives in `plan.rs`
(not under `src/`); per the spec it emits the operator-specific
explanation carrying a stable index name when the ref resolves. -/
def IndexOption.explain (io : IndexOption) (ix_def : List DefineIndexStatement) : Value :=
  match ix_def.get? io.ix_ref with
  | Option.some ix => Value.object [("index", Value.str ix.name)]
  | Option.none => Value.object []

/-- Modelled from the spec: the `Value::from(&RangeValue)` serialization
of a range bound (value plus inclusivity). -/
def Value.fromRange (r : RangeValue) : Value :=
  Value.object [("value", r.value), ("inclusive", Value.bool r.inclusive)]

/-- `IteratorEntry::explain`. -/
def IteratorEntry.explainE (ie : IteratorEntry) (ix_def : List DefineIndexStatement) : Value :=
  match ie with
  | .single _ io => io.explain ix_def
  | .range _ ir frm toV =>
      let e : List (String × Value) :=
        match ix_def.get? ir with
        | Option.some ix => [("index", Value.str ix.name)]
        | Option.none => []
      Value.object (e ++ [("from", Value.fromRange frm), ("to", Value.fromRange toV)])

/-- `QueryExecutor::explain`: `Value::None` when the reference does not
resolve to a registered entry. -/
def QueryExecutor.explain (qe : QueryExecutor) (itr : Nat) : Value :=
  match qe.it_entries.get? itr with
  | Option.some ie => ie.explainE qe.index_definitions
  | Option.none => Value.none

/-- `QueryExecutor::new_range_iterator`. -/
def QueryExecutor.new_range_iterator (qe : QueryExecutor) (opt : Options)
    (ir : IndexRef) (frm toV : RangeValue) : Option ThingIterator :=
  match qe.get_index_def ir with
  | Option.some ix =>
      match ix.index with
      | .idx => Option.some (.indexRange opt.ns opt.db ix.what ix.name frm toV)
      | .uniq => Option.some (.uniqueRange opt.ns opt.db ix.what ix.name frm toV)
      | _ => Option.none
  | Option.none => Option.none

/-- `QueryExecutor::new_search_index_iterator`; the fallible
`MatchesThingIterator::new` storage reads are the `matches_iter_new`
oracle. -/
def QueryExecutor.new_search_index_iterator (qe : QueryExecutor) (env : ExecEnv)
    (it_ref : Nat) (io : IndexOption) : Except Error (Option ThingIterator) :=
  match qe.it_entries.get? it_ref with
  | Option.some (.single exp _) =>
      match io.op with
      | .matches _ _ =>
          match alookup io.ix_ref qe.ft_map with
          | Option.some fti =>
              match alookup exp qe.exp_entries with
              | Option.some fte =>
                  match env.matches_iter_new fti fte.terms_docs with
                  | .ok _ => .ok (Option.some (.matchesIt fti fte.terms_docs))
                  | .error e => .error e
              | Option.none => .ok Option.none
          | Option.none => .ok Option.none
      | _ => .ok Option.none
  | _ => .ok Option.none

/-- `QueryExecutor::new_mtree_index_knn_iterator`. -/
def QueryExecutor.new_mtree_index_knn_iterator (qe : QueryExecutor)
    (it_ref : Nat) : Option ThingIterator :=
  match qe.it_entries.get? it_ref with
  | Option.some (.single exp _) =>
      match alookup exp qe.mt_entries with
      | Option.some mte => Option.some (.knnIt mte.doc_ids mte.res)
      | Option.none => Option.none
  | _ => Option.none

mutual
/-- `QueryExecutor::new_single_iterator`: dispatch on the index kind of
the referenced definition. -/
def QueryExecutor.new_single_iterator (qe : QueryExecutor) (env : ExecEnv)
    (opt : Options) (it_ref : Nat) (io : IndexOption) :
    Except Error (Option ThingIterator) :=
  match qe.get_index_def io.ix_ref with
  | Option.some ix =>
      match ix.index with
      | .idx => qe.new_index_iterator env opt it_ref ix io
      | .uniq => qe.new_unique_index_iterator env opt it_ref ix io
      | .search _ => qe.new_search_index_iterator env it_ref io
      | .mtree _ => .ok (qe.new_mtree_index_knn_iterator it_ref)
  | Option.none => .ok Option.none
termination_by (sizeOf io, 1)

/-- `QueryExecutor::new_index_iterator`: dispatch on the operator for a
`Standard` (`Idx`) index; unsupported operators yield `Ok(None)`. -/
def QueryExecutor.new_index_iterator (qe : QueryExecutor) (env : ExecEnv)
    (opt : Options) (it_ref : Nat) (ix : DefineIndexStatement) (io : IndexOption) :
    Except Error (Option ThingIterator) :=
  match io with
  | .mk _ _ (.equality v) =>
      .ok (Option.some (.indexEqual opt.ns opt.db ix.what ix.name v))
  | .mk _ _ (.union v) =>
      .ok (Option.some (.indexUnion opt.ns opt.db ix.what ix.name v))
  | .mk _ _ (.join ios) =>
      match qe.build_iterators env opt it_ref ios with
      | .ok its => .ok (Option.some (.indexJoin ix.what ix.name its))
      | .error e => .error e
  | _ => .ok Option.none
termination_by (sizeOf io, 0)

/-- `QueryExecutor::new_unique_index_iterator`: dispatch on the operator
for a `Unique` index; unsupported operators yield `Ok(None)`. -/
def QueryExecutor.new_unique_index_iterator (qe : QueryExecutor) (env : ExecEnv)
    (opt : Options) (it_ref : Nat) (ix : DefineIndexStatement) (io : IndexOption) :
    Except Error (Option ThingIterator) :=
  match io with
  | .mk _ _ (.equality v) =>
      .ok (Option.some (.uniqueEqual opt.ns opt.db ix.what ix.name v))
  | .mk _ _ (.union v) =>
      .ok (Option.some (.uniqueUnion ix.what ix.name v))
  | .mk _ _ (.join ios) =>
      match qe.build_iterators env opt it_ref ios with
      | .ok its => .ok (Option.some (.uniqueJoin ix.what ix.name its))
      | .error e => .error e
  | _ => .ok Option.none
termination_by (sizeOf io, 0)

/-- `QueryExecutor::build_iterators`: recursively build the
sub-iterators of a `Join` operator, keeping only the `Some` results. -/
def QueryExecutor.build_iterators (qe : QueryExecutor) (env : ExecEnv)
    (opt : Options) (it_ref : Nat) (ios : List IndexOption) :
    Except Error (List ThingIterator) :=
  match ios with
  | [] => .ok []
  | io :: rest =>
      match qe.new_single_iterator env opt it_ref io with
      | .ok (Option.some it) =>
          match qe.build_iterators env opt it_ref rest with
          | .ok its => .ok (it :: its)
          | .error e => .error e
      | .ok Option.none => qe.build_iterators env opt it_ref rest
      | .error e => .error e
termination_by (sizeOf ios, 2)
end

/-- `QueryExecutor::new_iterator`: resolve the registered
`IteratorEntry` and dispatch; out-of-range references yield
`Ok(None)`. -/
def QueryExecutor.new_iterator (qe : QueryExecutor) (env : ExecEnv)
    (opt : Options) (it_ref : Nat) : Except Error (Option ThingIterator) :=
  match qe.it_entries.get? it_ref with
  | Option.some (.single _ io) => qe.new_single_iterator env opt it_ref io
  | Option.some (.range _ ir frm toV) => .ok (qe.new_range_iterator opt ir frm toV)
  | Option.none => .ok Option.none

/-- The inner loop of `QueryExecutor::matches_with_doc_id`: a missing
term slot or a posting list not containing the doc id short-circuits to
`false`. -/
def checkTermsDocs (doc_id : DocId) : TermsDocsM → Bool
  | [] => true
  | Option.some (_, docs) :: rest =>
      if decide (doc_id ∈ docs) then checkTermsDocs doc_id rest else false
  | Option.none :: _ => false

/-- `QueryExecutor::matches_with_doc_id`. -/
def QueryExecutor.matches_with_doc_id (_qe : QueryExecutor) (thg : Thing)
    (ft : FtEntry) : Except Error Bool :=
  match alookup thg ft.doc_ids with
  | Option.some doc_id =>
      if ft.terms_docs.length = 0 then .ok false
      else .ok (checkTermsDocs doc_id ft.terms_docs)
  | Option.none => .ok false

/-- `QueryExecutor::matches_with_value`: re-analyze the non-indexed
operand (via the `extract_indexing_terms` oracle) and test the subset
relation. -/
def QueryExecutor.matches_with_value (_qe : QueryExecutor) (env : ExecEnv)
    (ft : FtEntry) (l r : Value) : Except Error Bool :=
  if !ft.query_terms_set.is_matchable then .ok false
  else
    let v := match ft.index_option.id_pos with
      | .left => r
      | .right => l
    match env.extract_indexing_terms ft.analyzer v with
    | .ok t => .ok (ft.query_terms_set.is_subset t)
    | .error e => .error e

/-- `QueryExecutor::matches`: doc-id path when the indexed table is the
executor's own table, value-extraction path otherwise, user error when
the expression has no registered entry. -/
def QueryExecutor.matches (qe : QueryExecutor) (env : ExecEnv) (thg : Thing)
    (exp : Expression) (l r : Value) : Except Error Bool :=
  match alookup exp qe.exp_entries with
  | Option.some ft =>
      match qe.get_index_def ft.index_option.ix_ref with
      | Option.some ix_def =>
          if qe.table = ix_def.what then qe.matches_with_doc_id thg ft
          else qe.matches_with_value env ft l r
      | Option.none => qe.matches_with_value env ft l r
  | Option.none => .error (.noIndexFoundForMatch exp)

/-- `QueryExecutor::get_ft_entry`. -/
def QueryExecutor.get_ft_entry (qe : QueryExecutor) (match_ref : Value) :
    Option FtEntry :=
  match QueryExecutor.get_match_ref match_ref with
  | Option.some mr => alookup mr qe.mr_entries
  | Option.none => Option.none

/-- `QueryExecutor::get_ft_entry_and_index`. -/
def QueryExecutor.get_ft_entry_and_index (qe : QueryExecutor)
    (match_ref : Value) : Option (FtEntry × Nat) :=
  match qe.get_ft_entry match_ref with
  | Option.some e =>
      match alookup e.index_option.ix_ref qe.ft_map with
      | Option.some ft => Option.some (e, ft)
      | Option.none => Option.none
  | Option.none => Option.none

/-- `QueryExecutor::highlight`: defers to the FT index's highlighter
when the match ref resolves, and returns `Value::None` otherwise. -/
def QueryExecutor.highlight (qe : QueryExecutor) (env : ExecEnv) (thg : Thing)
    (pre suf : Value) (match_ref : Value) (pFlag : Bool) (doc : Value) :
    Except Error Value :=
  match qe.get_ft_entry_and_index match_ref with
  | Option.some (e, ft) => env.ft_highlight ft thg e.query_terms_list pre suf pFlag doc
  | Option.none => .ok Value.none

/-- `QueryExecutor::offsets`. -/
def QueryExecutor.offsets (qe : QueryExecutor) (env : ExecEnv) (thg : Thing)
    (match_ref : Value) (pFlag : Bool) : Except Error Value :=
  match qe.get_ft_entry_and_index match_ref with
  | Option.some (e, ft) => env.ft_extract_offsets ft thg e.query_terms_list pFlag
  | Option.none => .ok Value.none

/-- `QueryExecutor::score`: resolve the doc id if absent, then delegate
to the BM25 scorer; `Value::None` whenever anything is missing. -/
def QueryExecutor.score (qe : QueryExecutor) (env : ExecEnv)
    (match_ref : Value) (rid : Thing) (doc_id : Option DocId) :
    Except Error Value :=
  match qe.get_ft_entry match_ref with
  | Option.some e =>
      match e.scorer with
      | Option.some scorer =>
          let d := match doc_id with
            | Option.some d => Option.some d
            | Option.none => alookup rid e.doc_ids
          match d with
          | Option.some d =>
              match env.scorer_score scorer d with
              | .ok (Option.some s) => .ok (Value.number s)
              | .ok Option.none => .ok Value.none
              | .error er => .error er
          | Option.none => .ok Value.none
      | Option.none => .ok Value.none
  | Option.none => .ok Value.none

/-- `QueryExecutor::knn`, with the `KnnPriorityList::add` side effect
reified as the returned list of `(distance, thing)` insertions: during
the iterate stage, membership in the frozen per-table set; otherwise
(the build-set stage) compute the field vector and its distance via the
oracles, log the insertion, and answer `true`. -/
def QueryExecutor.knn (qe : QueryExecutor) (env : ExecEnv)
    (stage : Option IterationStage) (thg : Thing) (exp : Expression) :
    Except Error (Value × List (DistVal × Thing)) :=
  match stage with
  | Option.some (.iterate e) =>
      let b := match e with
        | Option.some m =>
            match alookup thg.tb m with
            | Option.some tbl =>
                match alookup exp tbl with
                | Option.some things => decide (thg ∈ things)
                | Option.none => false
            | Option.none => false
        | Option.none => false
      .ok (Value.bool b, [])
  | _ =>
      match alookup exp qe.knn_entries with
      | Option.some ke =>
          match env.idiom_compute ke.id with
          | .ok v =>
              match env.dist_compute ke.dist v ke.obj with
              | .ok d => .ok (Value.bool true, [(d, thg)])
              | .error er => .error er
          | .error er => .error er
      | Option.none => .ok (Value.bool true, [])

namespace Build

/-!
Model of the build phase (`InnerQueryExecutor::new`).  The full-text /
M-Tree backend construction and per-predicate entry construction read
storage; the data they return lives behind the abstracted collaborators
above, so here an entry is projected to the fields the build-time
claims concern: the `IndexOption` it was created from and the identity
of the backend handle it shares.  Backend construction calls are logged
(`ftLog`, `mtLog`) so that "constructed at most once" is a statement
about the model, and each constructed backend receives a fresh
identifier `nextId`.
-/

/-- Build-time projection of `FtEntry`: the option it stores (whose
operator drives the `MatchRef` bookkeeping) and the shared `FtIndex`
handle identity. -/
structure FtEntry where
  index_option : IndexOption
  backendId : Nat

/-- Build-time projection of `MtEntry`: which index its shared `DocIds`
handle came from, and that handle's identity. -/
structure MtEntry where
  ixRef : IndexRef
  backendId : Nat

/-- A kNN entry as installed by the builder: a fresh `KnnPriorityList`
of capacity `k` plus the predicate parameters. -/
structure KnnEntryB where
  k : Nat
  id : Idiom
  obj : List NumberV
  dist : DistanceMetric

/-- `IndexesMap`: the compiled plan handed to the builder. -/
structure IndexesMap where
  options : List (Expression × IndexOption)
  definitions : List DefineIndexStatement

/-- Oracles for the fallible external calls of the build phase
(`FtIndex::new`, the storage reads inside `FtEntry::new`,
`MTreeIndex::new`, `MtEntry::new`); deterministic in their
arguments. -/
structure BuildEnv where
  ft_index_new : IndexRef → Except Error Unit
  ft_entry_new : IndexOption → Except Error Unit
  mtree_index_new : IndexRef → Except Error Unit
  mt_entry_new : IndexRef → IndexOption → Except Error Unit

/-- The builder's accumulating state, with instrumentation logs of the
backend constructions performed. -/
structure St where
  mr_entries : List (MatchRef × FtEntry)
  exp_entries : List (Expression × FtEntry)
  ft_map : List (IndexRef × Nat)
  mt_map : List (IndexRef × Nat)
  mt_entries : List (Expression × MtEntry)
  ftLog : List IndexRef
  mtLog : List IndexRef
  nextId : Nat

/-- The builder's initial state. -/
def St.empty : St := ⟨[], [], [], [], [], [], [], 0⟩

/-- `FtEntry::new`: returns an entry exactly for `Matches` operators
(reading storage, which can fail), `None` otherwise. -/
def ftEntryNewM (env : BuildEnv) (io : IndexOption) (bid : Nat) :
    Except Error (Option FtEntry) :=
  match io.op with
  | .matches _ _ =>
      match env.ft_entry_new io with
      | .ok _ => .ok (Option.some ⟨io, bid⟩)
      | .error e => .error e
  | _ => .ok Option.none

/-- Registration of a built `FtEntry`: the duplicate-`MatchRef` check
(`mr_entries.insert(..).is_some()` raises `DuplicatedMatchRef`) followed
by the expression binding. -/
def regFt (st : St) (exp : Expression) (fte : Option FtEntry) : Except Error St :=
  match fte with
  | Option.some e =>
      match e.index_option.op with
      | .matches _ (Option.some mr) =>
          match alookup mr st.mr_entries with
          | Option.some _ => .error (.duplicatedMatchRef mr)
          | Option.none =>
              .ok { st with mr_entries := (mr, e) :: st.mr_entries,
                            exp_entries := (exp, e) :: st.exp_entries }
      | _ => .ok { st with exp_entries := (exp, e) :: st.exp_entries }
  | Option.none => .ok st

/-- One iteration of the builder's loop over `im.options`: resolve the
definition, then get-or-create the backend for `Search` / `MTree`
kinds and register the per-predicate entry. -/
def step (env : BuildEnv) (defs : List DefineIndexStatement) (st : St)
    (eio : Expression × IndexOption) : Except Error St :=
  let exp := eio.1
  let io := eio.2
  let ix_ref := io.ix_ref
  match defs.get? ix_ref with
  | Option.none => .ok st
  | Option.some idx_def =>
      match idx_def.index with
      | .search _ =>
          (match alookup ix_ref st.ft_map with
           | Option.some bid =>
               match ftEntryNewM env io bid with
               | .ok fte => regFt st exp fte
               | .error e => .error e
           | Option.none =>
               match env.ft_index_new ix_ref with
               | .ok _ =>
                   let bid := st.nextId
                   match ftEntryNewM env io bid with
                   | .ok fte =>
                       regFt { st with ft_map := (ix_ref, bid) :: st.ft_map,
                                       ftLog := ix_ref :: st.ftLog,
                                       nextId := st.nextId + 1 } exp fte
                   | .error e => .error e
               | .error e => .error e)
      | .mtree _ =>
          (match io.op with
           | .knn _ _ =>
               (match alookup ix_ref st.mt_map with
                | Option.some bid =>
                    match env.mt_entry_new ix_ref io with
                    | .ok _ =>
                        .ok { st with mt_entries := (exp, ⟨ix_ref, bid⟩) :: st.mt_entries }
                    | .error e => .error e
                | Option.none =>
                    match env.mtree_index_new ix_ref with
                    | .ok _ =>
                        let bid := st.nextId
                        match env.mt_entry_new ix_ref io with
                        | .ok _ =>
                            .ok { st with
                                  mt_map := (ix_ref, bid) :: st.mt_map,
                                  mtLog := ix_ref :: st.mtLog,
                                  nextId := st.nextId + 1,
                                  mt_entries := (exp, ⟨ix_ref, bid⟩) :: st.mt_entries }
                        | .error e => .error e
                    | .error e => .error e)
           | _ => .ok st)
      | _ => .ok st

/-- The builder's loop over all `(expression, option)` pairs of the
plan. -/
def buildLoop (env : BuildEnv) (defs : List DefineIndexStatement) :
    List (Expression × IndexOption) → St → Except Error St
  | [], st => .ok st
  | eio :: rest, st =>
      match step env defs st eio with
      | .ok st' => buildLoop env defs rest st'
      | .error e => .error e

/-- The built `InnerQueryExecutor` (build-time projection), with the
construction logs retained as instrumentation. -/
structure InnerQueryExecutor where
  table : String
  ft_map : List (IndexRef × Nat)
  mr_entries : List (MatchRef × FtEntry)
  exp_entries : List (Expression × FtEntry)
  it_entries : List IteratorEntry
  index_definitions : List DefineIndexStatement
  mt_entries : List (Expression × MtEntry)
  knn_entries : List (Expression × KnnEntryB)
  ftLog : List IndexRef
  mtLog : List IndexRef

/-- `InnerQueryExecutor::new`: run the loop over the plan's options,
then install one fresh `KnnPriorityList(k)` per kNN expression. -/
def InnerQueryExecutor.new (env : BuildEnv) (table : String) (im : IndexesMap)
    (knns : List (Expression × Nat × Idiom × List NumberV × DistanceMetric)) :
    Except Error InnerQueryExecutor :=
  match buildLoop env im.definitions im.options St.empty with
  | .ok st =>
      .ok { table := table
            ft_map := st.ft_map
            mr_entries := st.mr_entries
            exp_entries := st.exp_entries
            it_entries := []
            index_definitions := im.definitions
            mt_entries := st.mt_entries
            knn_entries := knns.map (fun p => (p.1, ⟨p.2.1, p.2.2.1, p.2.2.2.1, p.2.2.2.2⟩))
            ftLog := st.ftLog
            mtLog := st.mtLog }
  | .error e => .error e

/-- `InnerQueryExecutor::add_iterator`: append the entry and return the
new `IteratorRef`. -/
def InnerQueryExecutor.add_iterator (ex : InnerQueryExecutor)
    (it_entry : IteratorEntry) : InnerQueryExecutor × Nat :=
  ({ ex with it_entries := ex.it_entries ++ [it_entry] }, ex.it_entries.length)

/-- The `MatchRef` one plan option explicitly declares, when it is a
`Matches` predicate resolving to a `Search` index definition (exactly
the case in which the builder's duplicate check sees it). -/
def declaredRef (defs : List DefineIndexStatement)
    (eio : Expression × IndexOption) : Option MatchRef :=
  match defs.get? eio.2.ix_ref with
  | Option.some d =>
      match d.index, eio.2.op with
      | .search _, .matches _ (Option.some mr) => Option.some mr
      | _, _ => Option.none
  | Option.none => Option.none

/-- The `MatchRef`s explicitly declared by `Matches` predicates that
resolve to a `Search` index definition, in plan order. -/
def declaredMatchRefs (defs : List DefineIndexStatement)
    (opts : List (Expression × IndexOption)) : List MatchRef :=
  opts.filterMap (declaredRef defs)

/-- All build-phase oracles succeed (no storage / analyzer failures on
this plan). -/
def envOk (env : BuildEnv) : Prop :=
  (∀ i, env.ft_index_new i = .ok ()) ∧
  (∀ io, env.ft_entry_new io = .ok ()) ∧
  (∀ i, env.mtree_index_new i = .ok ()) ∧
  (∀ i io, env.mt_entry_new i io = .ok ())

/-- First element of the list that repeats an earlier one (relative to
the already-seen prefix `seen`). -/
def firstDupAux (seen : List MatchRef) : List MatchRef → Option MatchRef
  | [] => Option.none
  | m :: rest => if m ∈ seen then Option.some m else firstDupAux (m :: seen) rest

/-- The keys currently registered in `mr_entries`. -/
def St.mrKeys (st : St) : List MatchRef :=
  st.mr_entries.map Prod.fst

end Build

namespace Build

/-- The build-state invariant behind the at-most-once / sharing
post-condition: the construction logs are duplicate-free, the backend
maps register exactly the logged constructions, every logged
construction belongs to an index definition of the matching kind, and
every registered entry's backend handle is the one its `IndexRef` maps
to. -/
structure Inv (defs : List DefineIndexStatement) (st : St) : Prop where
  ftNodup : st.ftLog.Nodup
  mtNodup : st.mtLog.Nodup
  ftKeys : ∀ i, (alookup i st.ft_map).isSome ↔ i ∈ st.ftLog
  mtKeys : ∀ i, (alookup i st.mt_map).isSome ↔ i ∈ st.mtLog
  ftSearch : ∀ i ∈ st.ftLog, ∃ d p, defs.get? i = Option.some d ∧ d.index = Index.search p
  mtTree : ∀ i ∈ st.mtLog, ∃ d p, defs.get? i = Option.some d ∧ d.index = Index.mtree p
  shareExp : ∀ pr ∈ st.exp_entries,
    alookup (FtEntry.index_option pr.2).ix_ref st.ft_map = Option.some pr.2.backendId
  shareMr : ∀ pr ∈ st.mr_entries,
    alookup (FtEntry.index_option pr.2).ix_ref st.ft_map = Option.some pr.2.backendId
  shareMt : ∀ pr ∈ st.mt_entries,
    alookup pr.2.ixRef st.mt_map = Option.some pr.2.backendId

end Build

/-!  Concrete instances used by the witnesses and counterexamples. -/

/-- A total runtime oracle environment. -/
def envW : ExecEnv where
  extract_indexing_terms := fun _ _ => .ok ⟨[5, 6, 9], false⟩
  matches_iter_new := fun _ _ => .ok ()
  ft_highlight := fun _ _ _ _ _ _ _ => .ok Value.none
  ft_extract_offsets := fun _ _ _ _ => .ok Value.none
  scorer_score := fun _ _ => .ok (Option.some 42)
  idiom_compute := fun _ => .ok [1, 2]
  dist_compute := fun _ _ _ => .ok 5

/-- Concrete `Options`. -/
def optW : Options := ⟨"ns", "db"⟩

/-- Concrete record id. -/
def thgA : Thing := ⟨"t", "one"⟩

/-- A runtime executor with no registered state. -/
def qeEmpty : QueryExecutor :=
  ⟨"t", [], [], [], [], [], [], []⟩

/-- A concrete `Matches` index option on index 0. -/
def ioM : IndexOption := .mk 0 .left (.matches "q" Option.none)

/-- A concrete full-text entry over the executor's own table. -/
def ftEW : FtEntry where
  index_option := ioM
  doc_ids := [(thgA, 1)]
  analyzer := 0
  query_terms_set := ⟨[5, 6], false⟩
  query_terms_list := [5, 6]
  terms_docs := [Option.some (5, [1]), Option.some (6, [1, 2])]
  scorer := Option.some 0

/-- A search index definition on table `t`. -/
def dSearch : DefineIndexStatement := ⟨"ix0", "t", .search ⟨"az"⟩⟩

/-- Executor for the doc-id path: the entry's index is defined on the
executor's own table `t`. -/
def qeC5 : QueryExecutor :=
  { qeEmpty with
    ft_map := [(0, 0)]
    exp_entries := [(100, ftEW)]
    index_definitions := [dSearch] }

/-- Executor for the value-extraction path: its table `s` differs from
the entry's indexed table `t`. -/
def qeC6 : QueryExecutor :=
  { qeC5 with table := "s" }

/-- A concrete range bound. -/
def rvW : RangeValue := ⟨Value.number 1, true⟩

/-- Executor with registered range entries over a standard and a unique
index. -/
def qeC7 : QueryExecutor :=
  { qeEmpty with
    it_entries := [.range [] 0 rvW rvW, .range [] 1 rvW rvW]
    index_definitions := [⟨"i0", "t", .idx⟩, ⟨"i1", "t", .uniq⟩] }

/-- Executor with a `Matches` predicate registered over a standard
index (an unsupported combination for iterator construction). -/
def qeC9 : QueryExecutor :=
  { qeEmpty with
    it_entries := [.single 1 ioM]
    index_definitions := [⟨"i0", "t", .idx⟩] }

/-- Executor with one registered kNN entry for expression 9. -/
def qeKnn : QueryExecutor :=
  { qeEmpty with knn_entries := [(9, ⟨3, [1, 2], 0⟩)] }

/-- A frozen kNN set map placing `thgA` in the top-k set of
expression 9 on table `t`. -/
def knnSetW : KnnSetMap := [("t", [(9, [thgA])])]

/-- A build oracle environment where every external call succeeds. -/
def envB : Build.BuildEnv where
  ft_index_new := fun _ => .ok ()
  ft_entry_new := fun _ => .ok ()
  mtree_index_new := fun _ => .ok ()
  mt_entry_new := fun _ _ => .ok ()

/-- A plan whose two `Matches` predicates both declare `MatchRef 7`. -/
def imDup : Build.IndexesMap where
  options := [(1, .mk 0 .left (.matches "a" (Option.some 7))),
              (2, .mk 0 .left (.matches "b" (Option.some 7)))]
  definitions := [dSearch]

/-- A plan with two `Matches` predicates (no explicit refs) sharing one
search index. -/
def imShare : Build.IndexesMap where
  options := [(1, ioM), (2, .mk 0 .left (.matches "r" Option.none))]
  definitions := [dSearch]

/-- The executor built from `imShare`: one backend construction, both
entries sharing handle 0. -/
def exShare : Build.InnerQueryExecutor where
  table := "t"
  ft_map := [(0, 0)]
  mr_entries := []
  exp_entries := [(2, ⟨.mk 0 .left (.matches "r" Option.none), 0⟩), (1, ⟨ioM, 0⟩)]
  it_entries := []
  index_definitions := [dSearch]
  mt_entries := []
  knn_entries := []
  ftLog := [0]
  mtLog := []

/-!  Helper lemmas. -/

/-- Lookup success in an association list is membership among its
keys. -/
theorem alookup_isSome_iff {κ α : Type} [DecidableEq κ] (k : κ) :
    ∀ l : List (κ × α), (alookup k l).isSome ↔ k ∈ l.map Prod.fst := by
  intro l
  induction l with
  | nil => simp [alookup]
  | cons hd tl ih =>
      obtain ⟨k', v⟩ := hd
      by_cases h : k' = k
      · subst h
        simp [alookup]
      · simp [alookup, h, ih, Ne.symm h]

/-- Lookup ignores a newly consed binding with a different key. -/
theorem alookup_cons_ne {κ α : Type} [DecidableEq κ] (k k' : κ) (v : α)
    (l : List (κ × α)) (h : k' ≠ k) :
    alookup k ((k', v) :: l) = alookup k l := by
  simp [alookup, h]

/-- The posting-list loop accepts exactly when every slot is present and
contains the document. -/
theorem checkTermsDocs_eq_true_iff (d : DocId) :
    ∀ tds : TermsDocsM, checkTermsDocs d tds = true ↔
      ∀ otd ∈ tds, ∃ t docs, otd = Option.some (t, docs) ∧ d ∈ docs := by
  intro tds
  induction tds with
  | nil => simp [checkTermsDocs]
  | cons hd tl ih =>
      cases hd with
      | none => simp [checkTermsDocs]
      | some p =>
          obtain ⟨t, docs⟩ := p
          by_cases hmem : d ∈ docs
          · constructor
            · intro h otd hin
              rcases List.mem_cons.mp hin with h1 | h1
              · exact ⟨t, docs, h1, hmem⟩
              · have htl : checkTermsDocs d tl = true := by
                  simpa [checkTermsDocs, hmem] using h
                exact ih.mp htl otd h1
            · intro h
              have htl : checkTermsDocs d tl = true :=
                ih.mpr (fun otd hin => h otd (List.mem_cons_of_mem _ hin))
              simpa [checkTermsDocs, hmem] using htl
          · constructor
            · intro h
              simp [checkTermsDocs, hmem] at h
            · intro h
              exfalso
              rcases h (Option.some (t, docs)) (List.mem_cons_self _ _) with
                ⟨t', docs', heq, hd⟩
              have hpair : (t, docs) = (t', docs') := Option.some.inj heq
              rw [Prod.mk.injEq] at hpair
              exact hmem (hpair.2 ▸ hd)

/-!  Claim theorems. -/

/-- C3: a `matches` call for an expression with no registered `FtEntry`
returns the user error `NoIndexFoundForMatch` naming the expression,
never a boolean. -/
theorem C3_matches_without_entry_errors (qe : QueryExecutor) (env : ExecEnv)
    (thg : Thing) (exp : Expression) (l r : Value)
    (h : alookup exp qe.exp_entries = Option.none) :
    qe.matches env thg exp l r = .error (.noIndexFoundForMatch exp) := by
  unfold QueryExecutor.matches
  rw [h]

/-- Witness for C3. -/
theorem C3_witness :
    qeEmpty.matches envW thgA 5 Value.none Value.none =
      .error (.noIndexFoundForMatch 5) :=
  C3_matches_without_entry_errors qeEmpty envW thgA 5 Value.none Value.none rfl

/-- C10: an `IteratorRef` beyond the registered entries makes
`new_iterator` return `Ok(None)` and `explain` return `Value::None`;
neither errors. -/
theorem C10_out_of_range_iterator_ref (qe : QueryExecutor) (env : ExecEnv)
    (opt : Options) (it_ref : Nat) (h : qe.it_entries.length ≤ it_ref) :
    qe.new_iterator env opt it_ref = .ok Option.none ∧
      qe.explain it_ref = Value.none := by
  have hget : qe.it_entries.get? it_ref = Option.none := by
    rw [List.get?_eq_none]
    exact h
  constructor
  · unfold QueryExecutor.new_iterator
    rw [hget]
  · unfold QueryExecutor.explain
    rw [hget]

/-- Witness for C10. -/
theorem C10_witness :
    qeEmpty.new_iterator envW optW 0 = .ok Option.none ∧
      qeEmpty.explain 0 = Value.none :=
  C10_out_of_range_iterator_ref qeEmpty envW optW 0 (Nat.le_refl 0)

/-- C7: a registered `Range` entry over a `Standard` (`Idx`) or
`Unique` index yields the corresponding range iterator — `Some`, not
`None`. -/
theorem C7_range_entry_yields_range_iterator (qe : QueryExecutor)
    (env : ExecEnv) (opt : Options) (it_ref : Nat) (es : List Expression)
    (ir : IndexRef) (frm toV : RangeValue) (ixd : DefineIndexStatement)
    (hent : qe.it_entries.get? it_ref = Option.some (.range es ir frm toV))
    (hix : qe.get_index_def ir = Option.some ixd) :
    (ixd.index = Index.idx →
      qe.new_iterator env opt it_ref =
        .ok (Option.some (.indexRange opt.ns opt.db ixd.what ixd.name frm toV))) ∧
    (ixd.index = Index.uniq →
      qe.new_iterator env opt it_ref =
        .ok (Option.some (.uniqueRange opt.ns opt.db ixd.what ixd.name frm toV))) := by
  constructor <;> intro hkind <;>
    simp only [QueryExecutor.new_iterator, hent, QueryExecutor.new_range_iterator, hix, hkind]

/-- Witness for C7. -/
theorem C7_witness :
    (qeC7.new_iterator envW optW 0 =
      .ok (Option.some (.indexRange "ns" "db" "t" "i0" rvW rvW))) ∧
    (qeC7.new_iterator envW optW 1 =
      .ok (Option.some (.uniqueRange "ns" "db" "t" "i1" rvW rvW))) :=
  ⟨(C7_range_entry_yields_range_iterator qeC7 envW optW 0 [] 0 rvW rvW
      ⟨"i0", "t", .idx⟩ rfl rfl).1 rfl,
   (C7_range_entry_yields_range_iterator qeC7 envW optW 1 [] 1 rvW rvW
      ⟨"i1", "t", .uniq⟩ rfl rfl).2 rfl⟩

/-- C9: a registered entry whose `(index kind, operator)` combination is
unsupported — a `Matches` or `Knn` operator over a `Standard` or
`Unique` index — makes `new_iterator` return `Ok(None)`: no error, so
the caller can fall back to a full scan. -/
theorem C9_unsupported_combination_returns_none (qe : QueryExecutor)
    (env : ExecEnv) (opt : Options) (it_ref : Nat) (exp : Expression)
    (io : IndexOption) (ixd : DefineIndexStatement)
    (hent : qe.it_entries.get? it_ref = Option.some (.single exp io))
    (hix : qe.get_index_def io.ix_ref = Option.some ixd)
    (hkind : ixd.index = Index.idx ∨ ixd.index = Index.uniq)
    (hop : (∃ qs mr, io.op = .matches qs mr) ∨ (∃ a k, io.op = .knn a k)) :
    qe.new_iterator env opt it_ref = .ok Option.none := by
  obtain ⟨i, p, o⟩ := io
  simp only [IndexOption.ix_ref] at hix
  rcases hop with ⟨qs, mr, hop⟩ | ⟨a, k, hop⟩ <;>
    simp only [IndexOption.op] at hop <;> subst hop <;>
    rcases hkind with hkind | hkind <;>
    simp only [QueryExecutor.new_iterator, hent, QueryExecutor.new_single_iterator,
      IndexOption.ix_ref, hix, hkind, QueryExecutor.new_index_iterator,
      QueryExecutor.new_unique_index_iterator]

/-- Witness for C9. -/
theorem C9_witness : qeC9.new_iterator envW optW 0 = .ok Option.none :=
  C9_unsupported_combination_returns_none qeC9 envW optW 0 1 ioM
    ⟨"i0", "t", .idx⟩ rfl rfl (Or.inl rfl) (Or.inl ⟨"q", Option.none, rfl⟩)

/-- C5: with a registered entry whose index is defined on the
executor's own table, `matches` takes the doc-id path: it returns a
boolean (no error), true exactly when the record resolves to a doc id,
the query term list is non-empty, and every term slot is present with a
posting list containing that doc id. -/
theorem C5_matches_doc_id_path (qe : QueryExecutor) (env : ExecEnv)
    (thg : Thing) (exp : Expression) (l r : Value) (ft : FtEntry)
    (ixd : DefineIndexStatement)
    (hft : alookup exp qe.exp_entries = Option.some ft)
    (hix : qe.get_index_def ft.index_option.ix_ref = Option.some ixd)
    (htb : qe.table = ixd.what) :
    ∃ b, qe.matches env thg exp l r = .ok b ∧
      (b = true ↔ ∃ d, alookup thg ft.doc_ids = Option.some d ∧
        ft.terms_docs ≠ [] ∧
        ∀ otd ∈ ft.terms_docs, ∃ t docs, otd = Option.some (t, docs) ∧ d ∈ docs) := by
  have hm : qe.matches env thg exp l r = qe.matches_with_doc_id thg ft := by
    simp only [QueryExecutor.matches, hft, hix, htb, if_pos]
  rw [hm]
  unfold QueryExecutor.matches_with_doc_id
  cases hdoc : alookup thg ft.doc_ids with
  | none =>
      refine ⟨false, rfl, ?_⟩
      simp [hdoc]
  | some d =>
      by_cases hlen : ft.terms_docs.length = 0
      · have hnil : ft.terms_docs = [] := List.length_eq_zero.mp hlen
        refine ⟨false, by simp [hnil], ?_⟩
        simp [hnil]
      · refine ⟨checkTermsDocs d ft.terms_docs, by simp [hlen], ?_⟩
        rw [checkTermsDocs_eq_true_iff]
        constructor
        · intro h
          exact ⟨d, rfl, fun hnil => hlen (by rw [hnil]; rfl), h⟩
        · rintro ⟨d', hd', _, h⟩
          have : d = d' := Option.some.inj hd'
          exact this ▸ h

/-- Witness for C5: on `qeC5` the record resolves to doc id 1, which is
in both posting lists, so `matches` answers true. -/
theorem C5_witness :
    ∃ b, qeC5.matches envW thgA 100 Value.none Value.none = .ok b ∧
      (b = true ↔ ∃ d, alookup thgA ftEW.doc_ids = Option.some d ∧
        ftEW.terms_docs ≠ [] ∧
        ∀ otd ∈ ftEW.terms_docs, ∃ t docs, otd = Option.some (t, docs) ∧ d ∈ docs) :=
  C5_matches_doc_id_path qeC5 envW thgA 100 Value.none Value.none ftEW
    dSearch rfl rfl rfl

/-- C6: with a registered entry whose index is defined on a different
table, `matches` takes the value-extraction path: the non-indexed
operand (`r` for `IdiomPosition::Left`, `l` for `Right`) is re-analyzed
and the result is the subset test of the query terms against the
extracted terms, with a non-matchable query terms set forcing false. -/
theorem C6_matches_value_path (qe : QueryExecutor) (env : ExecEnv)
    (thg : Thing) (exp : Expression) (l r : Value) (ft : FtEntry)
    (ixd : DefineIndexStatement) (ts : TermsSet)
    (hft : alookup exp qe.exp_entries = Option.some ft)
    (hix : qe.get_index_def ft.index_option.ix_ref = Option.some ixd)
    (htb : qe.table ≠ ixd.what)
    (hex : env.extract_indexing_terms ft.analyzer
        (match ft.index_option.id_pos with
         | .left => r
         | .right => l) = .ok ts) :
    qe.matches env thg exp l r =
      .ok (ft.query_terms_set.is_matchable && ft.query_terms_set.is_subset ts) := by
  have hm : qe.matches env thg exp l r = qe.matches_with_value env ft l r := by
    simp only [QueryExecutor.matches, hft, hix, htb, if_neg, if_false]
  rw [hm]
  unfold QueryExecutor.matches_with_value
  cases hmm : ft.query_terms_set.is_matchable with
  | false => simp [hmm]
  | true => simp [hmm, hex]

/-- Witness for C6: on `qeC6` (table `s`, index on `t`) with query terms
`{5, 6}` and extracted terms `{5, 6, 9}`, the subset test decides the
result. -/
theorem C6_witness :
    qeC6.matches envW thgA 100 Value.none Value.none =
      .ok (ftEW.query_terms_set.is_matchable &&
        ftEW.query_terms_set.is_subset ⟨[5, 6, 9], false⟩) :=
  C6_matches_value_path qeC6 envW thgA 100 Value.none Value.none ftEW
    dSearch ⟨[5, 6, 9], false⟩ rfl rfl (by decide) rfl

/-- C4 counterexample: on an executor with no registered FT entries, a
`highlight` and a `score` call whose `match_ref` resolves to no entry
return `Ok(Value::None)` — not the `NoIndexFoundForMatch` error the
claim requires. -/
theorem C4_counterexample :
    qeEmpty.highlight envW thgA Value.none Value.none (Value.number 7) false
        Value.none = .ok Value.none ∧
      qeEmpty.score envW (Value.number 7) thgA Option.none = .ok Value.none :=
  ⟨rfl, rfl⟩

/-- C4 as amended: a `highlight` call whose `match_ref` resolves to no
registered FT entry (and index), and a `score` call whose `match_ref`
resolves to no registered FT entry, return `Value::None` without error;
`NoIndexFoundForMatch` is raised only by `matches`. -/
theorem C4_amended_unresolved_ref_returns_none (qe : QueryExecutor)
    (env : ExecEnv) (thg rid : Thing) (pre suf match_ref : Value)
    (pFlag : Bool) (doc : Value) (doc_id : Option DocId) :
    (qe.get_ft_entry_and_index match_ref = Option.none →
      qe.highlight env thg pre suf match_ref pFlag doc = .ok Value.none) ∧
    (qe.get_ft_entry match_ref = Option.none →
      qe.score env match_ref rid doc_id = .ok Value.none) := by
  constructor
  · intro h
    unfold QueryExecutor.highlight
    rw [h]
  · intro h
    unfold QueryExecutor.score
    rw [h]

/-- Witness for the amended C4. -/
theorem C4_amended_witness :
    qeEmpty.highlight envW thgA Value.none Value.none (Value.number 3) true
        Value.none = .ok Value.none ∧
      qeEmpty.score envW (Value.number 3) thgA (Option.some 1) = .ok Value.none :=
  ⟨(C4_amended_unresolved_ref_returns_none qeEmpty envW thgA thgA Value.none
      Value.none (Value.number 3) true Value.none (Option.some 1)).1 rfl,
   (C4_amended_unresolved_ref_returns_none qeEmpty envW thgA thgA Value.none
      Value.none (Value.number 3) true Value.none (Option.some 1)).2 rfl⟩

/-- C8: `knn` is two-phase.  Outside the iterate stage it logs the
insertion of the oracle-computed distance paired with the record into
the expression's priority list (when a kNN entry is registered) and
answers true; with no registered entry it logs nothing and still
answers true.  In the iterate stage it performs no insertion and
answers exactly the membership of the record in the frozen top-k set
for the expression (false when no set exists). -/
theorem C8_knn_two_phase (qe : QueryExecutor) (env : ExecEnv) (thg : Thing)
    (exp : Expression) :
    ((∀ stage : Option IterationStage,
        (∀ e, stage ≠ Option.some (IterationStage.iterate e)) →
        (∀ ke v d, alookup exp qe.knn_entries = Option.some ke →
            env.idiom_compute ke.id = .ok v →
            env.dist_compute ke.dist v ke.obj = .ok d →
            qe.knn env stage thg exp = .ok (Value.bool true, [(d, thg)])) ∧
        (alookup exp qe.knn_entries = Option.none →
            qe.knn env stage thg exp = .ok (Value.bool true, []))) ∧
      (∀ e, ∃ b, qe.knn env (Option.some (.iterate e)) thg exp =
          .ok (Value.bool b, []) ∧
        (b = true ↔ ∃ m tbl s, e = Option.some m ∧
          alookup thg.tb m = Option.some tbl ∧
          alookup exp tbl = Option.some s ∧ thg ∈ s))) := by
  constructor
  · intro stage hstage
    have hbuild : ∀ r, qe.knn env stage thg exp = r ↔
        (match alookup exp qe.knn_entries with
         | Option.some ke =>
             match env.idiom_compute ke.id with
             | .ok v =>
                 match env.dist_compute ke.dist v ke.obj with
                 | .ok d => .ok (Value.bool true, [(d, thg)])
                 | .error er => .error er
             | .error er => .error er
         | Option.none => .ok (Value.bool true, [])) = r := by
      intro r
      cases stage with
      | none => exact Iff.rfl
      | some s =>
          cases s with
          | buildKnn => exact Iff.rfl
          | iterate e => exact absurd rfl (hstage e)
    constructor
    · intro ke v d hke hv hd
      rw [hbuild]
      simp [hke, hv, hd]
    · intro hke
      rw [hbuild]
      simp [hke]
  · intro e
    cases e with
    | none =>
        refine ⟨false, rfl, ?_⟩
        simp
    | some m =>
        cases htbl : alookup thg.tb m with
        | none =>
            refine ⟨false, by simp [QueryExecutor.knn, htbl], ?_⟩
            simp [htbl]
        | some tbl =>
            cases hs : alookup exp tbl with
            | none =>
                refine ⟨false, by simp [QueryExecutor.knn, htbl, hs], ?_⟩
                simp [htbl, hs]
            | some s =>
                refine ⟨decide (thg ∈ s), by simp [QueryExecutor.knn, htbl, hs], ?_⟩
                simp [htbl, hs]

/-- Witness for C8: the build-stage branch at a concrete executor,
distance 5 logged for `thgA`. -/
theorem C8_witness :
    qeKnn.knn envW Option.none thgA 9 = .ok (Value.bool true, [(5, thgA)]) :=
  ((C8_knn_two_phase qeKnn envW thgA 9).1 Option.none
      (fun _ h => Option.noConfusion h)).1
    ⟨3, [1, 2], 0⟩ [1, 2] 5 rfl rfl rfl

namespace Build

/-- When every oracle succeeds, a failing build step can only be the
duplicate-`MatchRef` check firing: the step's option declares a ref
already registered, and the error names it. -/
theorem step_error_char (env : BuildEnv) (defs : List DefineIndexStatement)
    (st : St) (exp : Expression) (io : IndexOption) (e : Error)
    (henv : envOk env) (h : step env defs st (exp, io) = .error e) :
    ∃ mr, declaredRef defs (exp, io) = Option.some mr ∧
      e = .duplicatedMatchRef mr ∧ mr ∈ st.mrKeys := by
  obtain ⟨h1, h2, h3, h4⟩ := henv
  obtain ⟨i, p, o⟩ := io
  cases hdef : defs[i]? with
  | none => simp [step, IndexOption.ix_ref, hdef] at h
  | some d =>
      cases hind : d.index with
      | idx => simp [step, IndexOption.ix_ref, hdef, hind] at h
      | uniq => simp [step, IndexOption.ix_ref, hdef, hind] at h
      | mtree mp =>
          rcases o with v | v | ios | ⟨qs, mrOpt⟩ | ⟨a, k⟩
          case equality =>
            simp [step, IndexOption.ix_ref, IndexOption.op, hdef, hind] at h
          case union =>
            simp [step, IndexOption.ix_ref, IndexOption.op, hdef, hind] at h
          case join =>
            simp [step, IndexOption.ix_ref, IndexOption.op, hdef, hind] at h
          case _ =>
            simp [step, IndexOption.ix_ref, IndexOption.op, hdef, hind] at h
          case knn =>
            cases hmap : alookup i st.mt_map with
            | some bid =>
                simp [step, IndexOption.ix_ref, IndexOption.op, hdef, hind, hmap, h4] at h
            | none =>
                simp [step, IndexOption.ix_ref, IndexOption.op, hdef, hind, hmap,
                  h3, h4] at h
      | search sp =>
          rcases o with v | v | ios | ⟨qs, mrOpt⟩ | ⟨a, k⟩
          case equality =>
            cases hmap : alookup i st.ft_map <;>
              simp [step, IndexOption.ix_ref, IndexOption.op, hdef, hind, hmap,
                ftEntryNewM, h1, h2, regFt] at h
          case union =>
            cases hmap : alookup i st.ft_map <;>
              simp [step, IndexOption.ix_ref, IndexOption.op, hdef, hind, hmap,
                ftEntryNewM, h1, h2, regFt] at h
          case join =>
            cases hmap : alookup i st.ft_map <;>
              simp [step, IndexOption.ix_ref, IndexOption.op, hdef, hind, hmap,
                ftEntryNewM, h1, h2, regFt] at h
          case knn =>
            cases hmap : alookup i st.ft_map <;>
              simp [step, IndexOption.ix_ref, IndexOption.op, hdef, hind, hmap,
                ftEntryNewM, h1, h2, regFt] at h
          case _ =>
            cases mrOpt with
            | none =>
                cases hmap : alookup i st.ft_map <;>
                  simp [step, IndexOption.ix_ref, IndexOption.op, hdef, hind, hmap,
                    ftEntryNewM, h1, h2, regFt] at h
            | some mr =>
                have hmem : ∀ v, alookup mr st.mr_entries = Option.some v →
                    mr ∈ st.mrKeys := by
                  intro v hv
                  exact (alookup_isSome_iff mr st.mr_entries).mp (by rw [hv]; rfl)
                cases hmap : alookup i st.ft_map with
                | some bid =>
                    cases hmr : alookup mr st.mr_entries with
                    | some v =>
                        simp [step, IndexOption.ix_ref, IndexOption.op, hdef, hind,
                          hmap, ftEntryNewM, h2, regFt, hmr] at h
                        exact ⟨mr, by simp [declaredRef, IndexOption.ix_ref,
                          IndexOption.op, hdef, hind], h.symm, hmem v hmr⟩
                    | none =>
                        simp [step, IndexOption.ix_ref, IndexOption.op, hdef, hind,
                          hmap, ftEntryNewM, h2, regFt, hmr] at h
                | none =>
                    cases hmr : alookup mr st.mr_entries with
                    | some v =>
                        simp [step, IndexOption.ix_ref, IndexOption.op, hdef, hind,
                          hmap, ftEntryNewM, h1, h2, regFt, hmr] at h
                        exact ⟨mr, by simp [declaredRef, IndexOption.ix_ref,
                          IndexOption.op, hdef, hind], h.symm, hmem v hmr⟩
                    | none =>
                        simp [step, IndexOption.ix_ref, IndexOption.op, hdef, hind,
                          hmap, ftEntryNewM, h1, h2, regFt, hmr] at h

/-- A successful build step leaves the registered `MatchRef`s unchanged
when its option declares none, and registers exactly the declared (and
previously unregistered) ref otherwise. -/
theorem step_ok_char (env : BuildEnv) (defs : List DefineIndexStatement)
    (st : St) (exp : Expression) (io : IndexOption) (st' : St)
    (henv : envOk env) (h : step env defs st (exp, io) = .ok st') :
    (declaredRef defs (exp, io) = Option.none → st'.mrKeys = st.mrKeys) ∧
    (∀ mr, declaredRef defs (exp, io) = Option.some mr →
      mr ∉ st.mrKeys ∧ st'.mrKeys = mr :: st.mrKeys) := by
  obtain ⟨h1, h2, h3, h4⟩ := henv
  obtain ⟨i, p, o⟩ := io
  cases hdef : defs[i]? with
  | none =>
      simp [step, IndexOption.ix_ref, hdef] at h
      subst h
      exact ⟨fun _ => rfl,
        fun mr hdr => by simp [declaredRef, IndexOption.ix_ref, hdef] at hdr⟩
  | some d =>
      cases hind : d.index with
      | idx =>
          simp [step, IndexOption.ix_ref, hdef, hind] at h
          subst h
          exact ⟨fun _ => rfl, fun mr hdr => by
            simp [declaredRef, IndexOption.ix_ref, hdef, hind] at hdr⟩
      | uniq =>
          simp [step, IndexOption.ix_ref, hdef, hind] at h
          subst h
          exact ⟨fun _ => rfl, fun mr hdr => by
            simp [declaredRef, IndexOption.ix_ref, hdef, hind] at hdr⟩
      | mtree mp =>
          have hdr1 : declaredRef defs (exp, IndexOption.mk i p o) = Option.none := by
            rcases o with v | v | ios | ⟨qs, mrOpt⟩ | ⟨a, k⟩ <;>
              simp [declaredRef, IndexOption.ix_ref, IndexOption.op, hdef, hind]
          have hdr0 : ∀ mr, ¬ declaredRef defs (exp, IndexOption.mk i p o) =
              Option.some mr := by
            intro mr hdr
            rw [hdr1] at hdr
            exact Option.noConfusion hdr
          rcases o with v | v | ios | ⟨qs, mrOpt⟩ | ⟨a, k⟩
          case equality =>
            simp [step, IndexOption.ix_ref, IndexOption.op, hdef, hind] at h
            subst h
            exact ⟨fun _ => rfl, fun mr hdr => absurd hdr (hdr0 mr)⟩
          case union =>
            simp [step, IndexOption.ix_ref, IndexOption.op, hdef, hind] at h
            subst h
            exact ⟨fun _ => rfl, fun mr hdr => absurd hdr (hdr0 mr)⟩
          case join =>
            simp [step, IndexOption.ix_ref, IndexOption.op, hdef, hind] at h
            subst h
            exact ⟨fun _ => rfl, fun mr hdr => absurd hdr (hdr0 mr)⟩
          case _ =>
            simp [step, IndexOption.ix_ref, IndexOption.op, hdef, hind] at h
            subst h
            exact ⟨fun _ => rfl, fun mr hdr => absurd hdr (hdr0 mr)⟩
          case knn =>
            cases hmap : alookup i st.mt_map with
            | some bid =>
                simp [step, IndexOption.ix_ref, IndexOption.op, hdef, hind, hmap,
                  h4] at h
                subst h
                exact ⟨fun _ => rfl, fun mr hdr => absurd hdr (hdr0 mr)⟩
            | none =>
                simp [step, IndexOption.ix_ref, IndexOption.op, hdef, hind, hmap,
                  h3, h4] at h
                subst h
                exact ⟨fun _ => rfl, fun mr hdr => absurd hdr (hdr0 mr)⟩
      | search sp =>
          rcases o with v | v | ios | ⟨qs, mrOpt⟩ | ⟨a, k⟩
          case equality =>
            cases hmap : alookup i st.ft_map
            all_goals
              simp [step, IndexOption.ix_ref, IndexOption.op, hdef, hind, hmap,
                ftEntryNewM, h1, h2, regFt] at h
              subst h
              exact ⟨fun _ => rfl, fun mr hdr => by
                simp [declaredRef, IndexOption.ix_ref, IndexOption.op, hdef, hind] at hdr⟩
          case union =>
            cases hmap : alookup i st.ft_map
            all_goals
              simp [step, IndexOption.ix_ref, IndexOption.op, hdef, hind, hmap,
                ftEntryNewM, h1, h2, regFt] at h
              subst h
              exact ⟨fun _ => rfl, fun mr hdr => by
                simp [declaredRef, IndexOption.ix_ref, IndexOption.op, hdef, hind] at hdr⟩
          case join =>
            cases hmap : alookup i st.ft_map
            all_goals
              simp [step, IndexOption.ix_ref, IndexOption.op, hdef, hind, hmap,
                ftEntryNewM, h1, h2, regFt] at h
              subst h
              exact ⟨fun _ => rfl, fun mr hdr => by
                simp [declaredRef, IndexOption.ix_ref, IndexOption.op, hdef, hind] at hdr⟩
          case knn =>
            cases hmap : alookup i st.ft_map
            all_goals
              simp [step, IndexOption.ix_ref, IndexOption.op, hdef, hind, hmap,
                ftEntryNewM, h1, h2, regFt] at h
              subst h
              exact ⟨fun _ => rfl, fun mr hdr => by
                simp [declaredRef, IndexOption.ix_ref, IndexOption.op, hdef, hind] at hdr⟩
          case _ =>
            cases mrOpt with
            | none =>
                cases hmap : alookup i st.ft_map
                all_goals
                  simp [step, IndexOption.ix_ref, IndexOption.op, hdef, hind, hmap,
                    ftEntryNewM, h1, h2, regFt] at h
                  subst h
                  exact ⟨fun _ => rfl, fun mr hdr => by
                    simp [declaredRef, IndexOption.ix_ref, IndexOption.op, hdef,
                      hind] at hdr⟩
            | some mr =>
                have hnotmem : alookup mr st.mr_entries = Option.none →
                    mr ∉ st.mrKeys := by
                  intro hmr hmem
                  have hs := (alookup_isSome_iff mr st.mr_entries).mpr hmem
                  rw [hmr] at hs
                  simp at hs
                cases hmap : alookup i st.ft_map with
                | some bid =>
                    cases hmr : alookup mr st.mr_entries with
                    | some v =>
                        simp [step, IndexOption.ix_ref, IndexOption.op, hdef, hind,
                          hmap, ftEntryNewM, h2, regFt, hmr] at h
                    | none =>
                        simp [step, IndexOption.ix_ref, IndexOption.op, hdef, hind,
                          hmap, ftEntryNewM, h2, regFt, hmr] at h
                        subst h
                        refine ⟨fun hdr => ?_, fun mr' hdr => ?_⟩
                        · simp [declaredRef, IndexOption.ix_ref, IndexOption.op,
                            hdef, hind] at hdr
                        · have hmm : mr = mr' := by
                            simpa [declaredRef, IndexOption.ix_ref, IndexOption.op,
                              hdef, hind] using hdr
                          cases hmm
                          exact ⟨hnotmem hmr, rfl⟩
                | none =>
                    cases hmr : alookup mr st.mr_entries with
                    | some v =>
                        simp [step, IndexOption.ix_ref, IndexOption.op, hdef, hind,
                          hmap, ftEntryNewM, h1, h2, regFt, hmr] at h
                    | none =>
                        simp [step, IndexOption.ix_ref, IndexOption.op, hdef, hind,
                          hmap, ftEntryNewM, h1, h2, regFt, hmr] at h
                        subst h
                        refine ⟨fun hdr => ?_, fun mr' hdr => ?_⟩
                        · simp [declaredRef, IndexOption.ix_ref, IndexOption.op,
                            hdef, hind] at hdr
                        · have hmm : mr = mr' := by
                            simpa [declaredRef, IndexOption.ix_ref, IndexOption.op,
                              hdef, hind] using hdr
                          cases hmm
                          exact ⟨hnotmem hmr, rfl⟩

/-- If no element repeats (relative to `seen`), the list is
duplicate-free and avoids `seen`. -/
theorem firstDupAux_eq_none (l : List MatchRef) :
    ∀ seen, firstDupAux seen l = Option.none →
      l.Nodup ∧ ∀ x ∈ l, x ∉ seen := by
  induction l with
  | nil => intro seen _; exact ⟨List.nodup_nil, by simp⟩
  | cons m rest ih =>
      intro seen h
      rw [firstDupAux] at h
      by_cases hm : m ∈ seen
      · rw [if_pos hm] at h
        exact Option.noConfusion h
      · rw [if_neg hm] at h
        obtain ⟨hnd, havoid⟩ := ih (m :: seen) h
        have hmrest : m ∉ rest := fun hmem =>
          (havoid m hmem) (List.mem_cons_self m seen)
        refine ⟨List.nodup_cons.mpr ⟨hmrest, hnd⟩, ?_⟩
        intro x hx
        rcases List.mem_cons.mp hx with rfl | hx'
        · exact hm
        · exact fun hxs => (havoid x hx') (List.mem_cons_of_mem m hxs)

/-- A reported first duplicate either closes a cycle with `seen` or
occurs at least twice in the list itself. -/
theorem firstDupAux_eq_some (l : List MatchRef) :
    ∀ seen m, firstDupAux seen l = Option.some m →
      (m ∈ seen ∧ m ∈ l) ∨ 2 ≤ l.count m := by
  induction l with
  | nil => intro seen m h; exact Option.noConfusion h
  | cons hd rest ih =>
      intro seen m h
      rw [firstDupAux] at h
      by_cases hm : hd ∈ seen
      · rw [if_pos hm] at h
        have : hd = m := Option.some.inj h
        subst this
        exact Or.inl ⟨hm, List.mem_cons_self hd rest⟩
      · rw [if_neg hm] at h
        rcases ih (hd :: seen) m h with ⟨hseen, hmem⟩ | hcount
        · rcases List.mem_cons.mp hseen with rfl | hseen'
          · refine Or.inr ?_
            rw [List.count_cons_self]
            have : 1 ≤ rest.count m := List.count_pos_iff.mpr hmem
            omega
          · exact Or.inl ⟨hseen', List.mem_cons_of_mem hd hmem⟩
        · refine Or.inr ?_
          rw [List.count_cons]
          omega

/-- Under all-successful oracles, the build loop fails with
`DuplicatedMatchRef` at the first declared ref repeating an
already-registered one. -/
theorem buildLoop_first_dup (env : BuildEnv) (defs : List DefineIndexStatement)
    (henv : envOk env) :
    ∀ (opts : List (Expression × IndexOption)) (st : St) (m : MatchRef),
      firstDupAux st.mrKeys (declaredMatchRefs defs opts) = Option.some m →
      buildLoop env defs opts st = .error (.duplicatedMatchRef m) := by
  intro opts
  induction opts with
  | nil =>
      intro st m hfd
      simp [declaredMatchRefs, firstDupAux] at hfd
  | cons eio rest ih =>
      intro st m hfd
      obtain ⟨exp, io⟩ := eio
      rw [declaredMatchRefs, List.filterMap_cons] at hfd
      cases hstep : step env defs st (exp, io) with
      | error e =>
          obtain ⟨mr, hdr, he, hmem⟩ :=
            step_error_char env defs st exp io e henv hstep
          rw [hdr] at hfd
          rw [firstDupAux, if_pos hmem] at hfd
          have hm : mr = m := Option.some.inj hfd
          subst hm
          subst he
          simp [buildLoop, hstep]
      | ok st' =>
          have hchar := step_ok_char env defs st exp io st' henv hstep
          cases hdr : declaredRef defs (exp, io) with
          | none =>
              rw [hdr] at hfd
              have hkeys := hchar.1 hdr
              have hrec : firstDupAux st'.mrKeys (declaredMatchRefs defs rest) =
                  Option.some m := by
                rw [hkeys]
                exact hfd
              simpa [buildLoop, hstep] using ih st' m hrec
          | some mr =>
              obtain ⟨hnot, hkeys⟩ := hchar.2 mr hdr
              rw [hdr] at hfd
              rw [firstDupAux, if_neg hnot] at hfd
              have hrec : firstDupAux st'.mrKeys (declaredMatchRefs defs rest) =
                  Option.some m := by
                rw [hkeys]
                exact hfd
              simpa [buildLoop, hstep] using ih st' m hrec

end Build

/-- C1: when every backend oracle succeeds, a plan in which two
`Matches` predicates declare the same explicit `MatchRef` `m` (and no
other ref is duplicated) makes `InnerQueryExecutor::new` fail with
`DuplicatedMatchRef{m}` instead of returning an executor. -/
theorem C1_duplicated_match_ref (env : Build.BuildEnv) (table : String)
    (im : Build.IndexesMap)
    (knns : List (Expression × Nat × Idiom × List NumberV × DistanceMetric))
    (m : MatchRef) (henv : Build.envOk env)
    (hdup : 2 ≤ (Build.declaredMatchRefs im.definitions im.options).count m)
    (huniq : ∀ m', 2 ≤ (Build.declaredMatchRefs im.definitions im.options).count m' →
      m' = m) :
    Build.InnerQueryExecutor.new env table im knns =
      .error (.duplicatedMatchRef m) := by
  have hnodup : ¬ (Build.declaredMatchRefs im.definitions im.options).Nodup := by
    intro hnd
    have := List.nodup_iff_count_le_one.mp hnd m
    omega
  cases hfd : Build.firstDupAux [] (Build.declaredMatchRefs im.definitions im.options) with
  | none =>
      exact absurd (Build.firstDupAux_eq_none _ [] hfd).1 hnodup
  | some m'' =>
      rcases Build.firstDupAux_eq_some _ [] m'' hfd with ⟨hin, _⟩ | hcount
      · exact absurd hin (List.not_mem_nil m'')
      · have hm : m'' = m := huniq m'' hcount
        subst hm
        have hloop := Build.buildLoop_first_dup env im.definitions henv
          im.options Build.St.empty m'' hfd
        unfold Build.InnerQueryExecutor.new
        rw [hloop]

/-- Witness for C1: the concrete two-predicate plan `imDup` declaring
`MatchRef 7` twice fails with `DuplicatedMatchRef{7}`. -/
theorem C1_witness :
    Build.InnerQueryExecutor.new envB "t" imDup [] =
      .error (.duplicatedMatchRef 7) :=
  C1_duplicated_match_ref envB "t" imDup [] 7
    ⟨fun _ => rfl, fun _ => rfl, fun _ => rfl, fun _ _ => rfl⟩
    (by decide)
    (by
      intro m' h
      have hL : Build.declaredMatchRefs imDup.definitions imDup.options =
          [7, 7] := rfl
      rw [hL] at h
      by_contra hne
      have hnm : m' ∉ [7, 7] := by simp [hne]
      rw [List.count_eq_zero_of_not_mem hnm] at h
      omega)

namespace Build

/-- The initial build state satisfies the invariant. -/
theorem Inv_empty (defs : List DefineIndexStatement) : Inv defs St.empty := by
  refine ⟨List.nodup_nil, List.nodup_nil, ?_, ?_, ?_, ?_, ?_, ?_, ?_⟩ <;>
    simp [St.empty, St.mrKeys, alookup]

/-- `FtEntry::new` either declines (non-`Matches` operator) or returns
the entry formed from its arguments. -/
theorem ftEntryNewM_ok (env : BuildEnv) (io : IndexOption) (bid : Nat)
    (fte : Option FtEntry) (h : ftEntryNewM env io bid = .ok fte) :
    fte = Option.none ∨ fte = Option.some ⟨io, bid⟩ := by
  obtain ⟨i, p, o⟩ := io
  rcases o with v | v | ios | ⟨qs, mrOpt⟩ | ⟨a, k⟩
  · simp [ftEntryNewM, IndexOption.op] at h
    first
    | exact Or.inl h
    | exact Or.inl h.symm
  · simp [ftEntryNewM, IndexOption.op] at h
    first
    | exact Or.inl h
    | exact Or.inl h.symm
  · simp [ftEntryNewM, IndexOption.op] at h
    first
    | exact Or.inl h
    | exact Or.inl h.symm
  · cases ho : env.ft_entry_new (IndexOption.mk i p (.matches qs mrOpt)) with
    | ok u =>
        simp [ftEntryNewM, IndexOption.op, ho] at h
        first
        | exact Or.inr h
        | exact Or.inr h.symm
    | error e => simp [ftEntryNewM, IndexOption.op, ho] at h
  · simp [ftEntryNewM, IndexOption.op] at h
    first
    | exact Or.inl h
    | exact Or.inl h.symm

/-- Registering an entry whose backend handle agrees with the map
preserves the invariant. -/
theorem regFt_inv (defs : List DefineIndexStatement) (st : St)
    (exp : Expression) (io : IndexOption) (bid : Nat) (st' : St)
    (hbid : alookup io.ix_ref st.ft_map = Option.some bid)
    (h : regFt st exp (Option.some ⟨io, bid⟩) = .ok st')
    (hI : Inv defs st) : Inv defs st' := by
  obtain ⟨i, p, o⟩ := io
  have hshare :
      ∀ pr ∈ ((exp, (⟨IndexOption.mk i p o, bid⟩ : FtEntry)) :: st.exp_entries),
        alookup (FtEntry.index_option pr.2).ix_ref st.ft_map =
          Option.some pr.2.backendId := by
    intro pr hpr
    rcases List.mem_cons.mp hpr with rfl | hpr'
    · exact hbid
    · exact hI.shareExp pr hpr'
  rcases o with v | v | ios | ⟨qs, mrOpt⟩ | ⟨a, k⟩
  case equality =>
    simp [regFt, IndexOption.op] at h
    subst h
    exact ⟨hI.ftNodup, hI.mtNodup, hI.ftKeys, hI.mtKeys, hI.ftSearch, hI.mtTree,
      hshare, hI.shareMr, hI.shareMt⟩
  case union =>
    simp [regFt, IndexOption.op] at h
    subst h
    exact ⟨hI.ftNodup, hI.mtNodup, hI.ftKeys, hI.mtKeys, hI.ftSearch, hI.mtTree,
      hshare, hI.shareMr, hI.shareMt⟩
  case join =>
    simp [regFt, IndexOption.op] at h
    subst h
    exact ⟨hI.ftNodup, hI.mtNodup, hI.ftKeys, hI.mtKeys, hI.ftSearch, hI.mtTree,
      hshare, hI.shareMr, hI.shareMt⟩
  case knn =>
    simp [regFt, IndexOption.op] at h
    subst h
    exact ⟨hI.ftNodup, hI.mtNodup, hI.ftKeys, hI.mtKeys, hI.ftSearch, hI.mtTree,
      hshare, hI.shareMr, hI.shareMt⟩
  case _ =>
    cases mrOpt with
    | none =>
        simp [regFt, IndexOption.op] at h
        subst h
        exact ⟨hI.ftNodup, hI.mtNodup, hI.ftKeys, hI.mtKeys, hI.ftSearch,
          hI.mtTree, hshare, hI.shareMr, hI.shareMt⟩
    | some mr =>
        cases hmr : alookup mr st.mr_entries with
        | some v => simp [regFt, IndexOption.op, hmr] at h
        | none =>
            simp [regFt, IndexOption.op, hmr] at h
            subst h
            refine ⟨hI.ftNodup, hI.mtNodup, hI.ftKeys, hI.mtKeys, hI.ftSearch,
              hI.mtTree, hshare, ?_, hI.shareMt⟩
            intro pr hpr
            rcases List.mem_cons.mp hpr with rfl | hpr'
            · exact hbid
            · exact hI.shareMr pr hpr'

/-- Constructing and registering a fresh `FtIndex` backend for a not
yet covered `Search` index preserves the invariant. -/
theorem Inv_insertFt (defs : List DefineIndexStatement) (st : St)
    (ir : IndexRef) (bid : Nat) (hI : Inv defs st)
    (hnone : alookup ir st.ft_map = Option.none)
    (hd : ∃ d p, defs.get? ir = Option.some d ∧ d.index = Index.search p) :
    Inv defs { st with ft_map := (ir, bid) :: st.ft_map,
                       ftLog := ir :: st.ftLog, nextId := st.nextId + 1 } := by
  have hirlog : ir ∉ st.ftLog := by
    intro hm
    have hs := (hI.ftKeys ir).mpr hm
    rw [hnone] at hs
    simp at hs
  refine ⟨List.nodup_cons.mpr ⟨hirlog, hI.ftNodup⟩, hI.mtNodup, ?_, hI.mtKeys,
    ?_, hI.mtTree, ?_, ?_, hI.shareMt⟩
  · intro j
    by_cases hj : ir = j
    · subst hj
      simp [alookup]
    · rw [alookup_cons_ne j ir bid st.ft_map hj]
      simp only [List.mem_cons]
      rw [hI.ftKeys j]
      constructor
      · exact fun hm => Or.inr hm
      · rintro (rfl | hm)
        · exact absurd rfl hj
        · exact hm
  · intro j hj
    rcases List.mem_cons.mp hj with rfl | hj'
    · exact hd
    · exact hI.ftSearch j hj'
  · intro pr hpr
    have old := hI.shareExp pr hpr
    have hne : ir ≠ (FtEntry.index_option pr.2).ix_ref := by
      intro he
      rw [← he] at old
      rw [hnone] at old
      exact Option.noConfusion old
    rw [alookup_cons_ne _ ir bid st.ft_map hne]
    exact old
  · intro pr hpr
    have old := hI.shareMr pr hpr
    have hne : ir ≠ (FtEntry.index_option pr.2).ix_ref := by
      intro he
      rw [← he] at old
      rw [hnone] at old
      exact Option.noConfusion old
    rw [alookup_cons_ne _ ir bid st.ft_map hne]
    exact old

/-- Adding an `MtEntry` that shares the already-registered backend of
its index preserves the invariant. -/
theorem Inv_consMtEntry (defs : List DefineIndexStatement) (st : St)
    (exp : Expression) (ir : IndexRef) (bid : Nat) (hI : Inv defs st)
    (hbid : alookup ir st.mt_map = Option.some bid) :
    Inv defs { st with mt_entries := (exp, ⟨ir, bid⟩) :: st.mt_entries } := by
  refine ⟨hI.ftNodup, hI.mtNodup, hI.ftKeys, hI.mtKeys, hI.ftSearch, hI.mtTree,
    hI.shareExp, hI.shareMr, ?_⟩
  intro pr hpr
  rcases List.mem_cons.mp hpr with rfl | hpr'
  · exact hbid
  · exact hI.shareMt pr hpr'

/-- Constructing a fresh `MTreeIndex` backend for a not yet covered
`MTree` index and registering its first entry preserves the
invariant. -/
theorem Inv_insertMtFull (defs : List DefineIndexStatement) (st : St)
    (exp : Expression) (ir : IndexRef) (bid : Nat) (hI : Inv defs st)
    (hnone : alookup ir st.mt_map = Option.none)
    (hd : ∃ d p, defs.get? ir = Option.some d ∧ d.index = Index.mtree p) :
    Inv defs { st with mt_map := (ir, bid) :: st.mt_map,
                       mtLog := ir :: st.mtLog, nextId := st.nextId + 1,
                       mt_entries := (exp, ⟨ir, bid⟩) :: st.mt_entries } := by
  have hirlog : ir ∉ st.mtLog := by
    intro hm
    have hs := (hI.mtKeys ir).mpr hm
    rw [hnone] at hs
    simp at hs
  refine ⟨hI.ftNodup, List.nodup_cons.mpr ⟨hirlog, hI.mtNodup⟩, hI.ftKeys, ?_,
    hI.ftSearch, ?_, hI.shareExp, hI.shareMr, ?_⟩
  · intro j
    by_cases hj : ir = j
    · subst hj
      simp [alookup]
    · rw [alookup_cons_ne j ir bid st.mt_map hj]
      simp only [List.mem_cons]
      rw [hI.mtKeys j]
      constructor
      · exact fun hm => Or.inr hm
      · rintro (rfl | hm)
        · exact absurd rfl hj
        · exact hm
  · intro j hj
    rcases List.mem_cons.mp hj with rfl | hj'
    · exact hd
    · exact hI.mtTree j hj'
  · intro pr hpr
    rcases List.mem_cons.mp hpr with rfl | hpr'
    · simp [alookup]
    · have old := hI.shareMt pr hpr'
      have hne : ir ≠ pr.2.ixRef := by
        intro he
        rw [← he] at old
        rw [hnone] at old
        exact Option.noConfusion old
      rw [alookup_cons_ne _ ir bid st.mt_map hne]
      exact old

/-- Every successful build step preserves the invariant. -/
theorem step_inv (env : BuildEnv) (defs : List DefineIndexStatement)
    (st : St) (exp : Expression) (io : IndexOption) (st' : St)
    (h : step env defs st (exp, io) = .ok st') (hI : Inv defs st) :
    Inv defs st' := by
  obtain ⟨i, p, o⟩ := io
  cases hdef : defs[i]? with
  | none =>
      simp [step, IndexOption.ix_ref, hdef] at h
      subst h
      exact hI
  | some d =>
      cases hind : d.index with
      | idx =>
          simp [step, IndexOption.ix_ref, hdef, hind] at h
          subst h
          exact hI
      | uniq =>
          simp [step, IndexOption.ix_ref, hdef, hind] at h
          subst h
          exact hI
      | search sp =>
          have hddef : ∃ d' p', defs.get? i = Option.some d' ∧
              d'.index = Index.search p' := ⟨d, sp, by simpa using hdef, hind⟩
          cases hmap : alookup i st.ft_map with
          | some bid =>
              cases hfe : ftEntryNewM env (IndexOption.mk i p o) bid with
              | error e =>
                  simp [step, IndexOption.ix_ref, hdef, hind, hmap, hfe] at h
              | ok fte =>
                  simp [step, IndexOption.ix_ref, hdef, hind, hmap, hfe] at h
                  rcases ftEntryNewM_ok env _ bid fte hfe with rfl | rfl
                  · simp [regFt] at h
                    subst h
                    exact hI
                  · exact regFt_inv defs st exp (IndexOption.mk i p o) bid st'
                      (by simpa [IndexOption.ix_ref] using hmap) h hI
          | none =>
              cases ho1 : env.ft_index_new i with
              | error e =>
                  simp [step, IndexOption.ix_ref, hdef, hind, hmap, ho1] at h
              | ok u =>
                  cases hfe : ftEntryNewM env (IndexOption.mk i p o) st.nextId with
                  | error e =>
                      simp [step, IndexOption.ix_ref, hdef, hind, hmap, ho1, hfe] at h
                  | ok fte =>
                      simp [step, IndexOption.ix_ref, hdef, hind, hmap, ho1, hfe] at h
                      have hI1 := Inv_insertFt defs st i st.nextId hI hmap hddef
                      rcases ftEntryNewM_ok env _ _ fte hfe with rfl | rfl
                      · simp [regFt] at h
                        subst h
                        exact hI1
                      · refine regFt_inv defs _ exp (IndexOption.mk i p o)
                          st.nextId st' ?_ h hI1
                        simp [IndexOption.ix_ref, alookup]
      | mtree mp =>
          have hddef : ∃ d' p', defs.get? i = Option.some d' ∧
              d'.index = Index.mtree p' := ⟨d, mp, by simpa using hdef, hind⟩
          rcases o with v | v | ios | ⟨qs, mrOpt⟩ | ⟨a, k⟩
          · simp [step, IndexOption.ix_ref, IndexOption.op, hdef, hind] at h
            subst h
            exact hI
          · simp [step, IndexOption.ix_ref, IndexOption.op, hdef, hind] at h
            subst h
            exact hI
          · simp [step, IndexOption.ix_ref, IndexOption.op, hdef, hind] at h
            subst h
            exact hI
          · simp [step, IndexOption.ix_ref, IndexOption.op, hdef, hind] at h
            subst h
            exact hI
          · cases hmap : alookup i st.mt_map with
            | some bid =>
                cases ho : env.mt_entry_new i (IndexOption.mk i p (.knn a k)) with
                | error e =>
                    simp [step, IndexOption.ix_ref, IndexOption.op, hdef, hind,
                      hmap, ho] at h
                | ok u =>
                    simp [step, IndexOption.ix_ref, IndexOption.op, hdef, hind,
                      hmap, ho] at h
                    subst h
                    exact Inv_consMtEntry defs st exp i bid hI hmap
            | none =>
                cases ho1 : env.mtree_index_new i with
                | error e =>
                    simp [step, IndexOption.ix_ref, IndexOption.op, hdef, hind,
                      hmap, ho1] at h
                | ok u =>
                    cases ho2 : env.mt_entry_new i (IndexOption.mk i p (.knn a k)) with
                    | error e =>
                        simp [step, IndexOption.ix_ref, IndexOption.op, hdef, hind,
                          hmap, ho1, ho2] at h
                    | ok u2 =>
                        simp [step, IndexOption.ix_ref, IndexOption.op, hdef, hind,
                          hmap, ho1, ho2] at h
                        subst h
                        exact Inv_insertMtFull defs st exp i st.nextId hI hmap hddef

/-- The build loop preserves the invariant. -/
theorem buildLoop_inv (env : BuildEnv) (defs : List DefineIndexStatement) :
    ∀ (opts : List (Expression × IndexOption)) (st st' : St),
      buildLoop env defs opts st = .ok st' → Inv defs st → Inv defs st' := by
  intro opts
  induction opts with
  | nil =>
      intro st st' h hI
      simp [buildLoop] at h
      subst h
      exact hI
  | cons eio rest ih =>
      intro st st' h hI
      obtain ⟨exp, io⟩ := eio
      cases hstep : step env defs st (exp, io) with
      | error e => simp [buildLoop, hstep] at h
      | ok st1 =>
          simp only [buildLoop, hstep] at h
          exact ih st1 st' h (step_inv env defs st exp io st1 hstep hI)

end Build

/-- C2: a successfully built executor constructed each `FtIndex` and
`MTreeIndex` backend at most once per distinct `IndexRef` (each
construction belonging to an index definition of the matching kind),
and every per-predicate `FtEntry` / `MtEntry` holds exactly the backend
handle registered for its `IndexRef`. -/
theorem C2_at_most_once_backends (env : Build.BuildEnv) (table : String)
    (im : Build.IndexesMap)
    (knns : List (Expression × Nat × Idiom × List NumberV × DistanceMetric))
    (ex : Build.InnerQueryExecutor)
    (h : Build.InnerQueryExecutor.new env table im knns = .ok ex) :
    ex.ftLog.Nodup ∧ ex.mtLog.Nodup ∧
    (∀ i ∈ ex.ftLog, ∃ d p, im.definitions.get? i = Option.some d ∧
      d.index = Index.search p) ∧
    (∀ i ∈ ex.mtLog, ∃ d p, im.definitions.get? i = Option.some d ∧
      d.index = Index.mtree p) ∧
    (∀ pr ∈ ex.exp_entries,
      alookup (Build.FtEntry.index_option pr.2).ix_ref ex.ft_map =
        Option.some pr.2.backendId) ∧
    (∀ pr ∈ ex.mr_entries,
      alookup (Build.FtEntry.index_option pr.2).ix_ref ex.ft_map =
        Option.some pr.2.backendId) ∧
    (∀ pr ∈ ex.mt_entries, pr.2.ixRef ∈ ex.mtLog) ∧
    (∀ pr ∈ ex.mt_entries, ∀ pr' ∈ ex.mt_entries,
      Build.MtEntry.ixRef pr.2 = Build.MtEntry.ixRef pr'.2 →
      Build.MtEntry.backendId pr.2 = Build.MtEntry.backendId pr'.2) := by
  unfold Build.InnerQueryExecutor.new at h
  cases hbl : Build.buildLoop env im.definitions im.options Build.St.empty with
  | error e =>
      rw [hbl] at h
      exact absurd h (by simp)
  | ok stf =>
      rw [hbl] at h
      simp only [Except.ok.injEq] at h
      subst h
      have hinv := Build.buildLoop_inv env im.definitions im.options
        Build.St.empty stf hbl (Build.Inv_empty im.definitions)
      refine ⟨hinv.ftNodup, hinv.mtNodup, hinv.ftSearch, hinv.mtTree,
        hinv.shareExp, hinv.shareMr, ?_, ?_⟩
      · intro pr hpr
        exact (hinv.mtKeys pr.2.ixRef).mp (by rw [hinv.shareMt pr hpr]; rfl)
      · intro pr hpr pr' hpr' heq
        have h1 := hinv.shareMt pr hpr
        have h2 := hinv.shareMt pr' hpr'
        rw [heq] at h1
        rw [h1] at h2
        exact Option.some.inj h2

/-- Witness for C2: the two-predicate one-index plan `imShare` builds
`exShare`, whose construction log holds index 0 once and whose two
entries share backend handle 0. -/
theorem C2_witness :
    exShare.ftLog.Nodup ∧ exShare.mtLog.Nodup ∧
    (∀ i ∈ exShare.ftLog, ∃ d p, imShare.definitions.get? i = Option.some d ∧
      d.index = Index.search p) ∧
    (∀ i ∈ exShare.mtLog, ∃ d p, imShare.definitions.get? i = Option.some d ∧
      d.index = Index.mtree p) ∧
    (∀ pr ∈ exShare.exp_entries,
      alookup (Build.FtEntry.index_option pr.2).ix_ref exShare.ft_map =
        Option.some pr.2.backendId) ∧
    (∀ pr ∈ exShare.mr_entries,
      alookup (Build.FtEntry.index_option pr.2).ix_ref exShare.ft_map =
        Option.some pr.2.backendId) ∧
    (∀ pr ∈ exShare.mt_entries, pr.2.ixRef ∈ exShare.mtLog) ∧
    (∀ pr ∈ exShare.mt_entries, ∀ pr' ∈ exShare.mt_entries,
      Build.MtEntry.ixRef pr.2 = Build.MtEntry.ixRef pr'.2 →
      Build.MtEntry.backendId pr.2 = Build.MtEntry.backendId pr'.2) :=
  C2_at_most_once_backends envB "t" imShare [] exShare rfl
